import Mathlib

/-!
# Verification of `config-fs-utils` (`src/index.js`)

A shallow embedding of the JavaScript module `config-fs-utils` and proofs
about it.  JavaScript strings are modelled as `List Char`.  The Node.js
filesystem (`fs.promises`) is modelled by an explicit state `Fs` holding the
file map, the set of existing directories, the recorded file modes, and an
event trace; environmental IO failures (permission errors, disk full, ...)
are modelled by per-operation fault lists carried in the state.  Each
primitive appends its event to the trace before deciding success, so the
trace records every attempted syscall in order.  Promise rejection /
`throw` is modelled by the `FsResult.err` constructor, which carries the
state reached at the failure point (JavaScript `catch` observes the side
effects performed before the throw).
-/

/-- JavaScript strings, modelled as lists of characters. -/
abbrev JStr := List Char

/-- Coerce a Lean string literal to the `JStr` model. -/
def str (s : String) : JStr := s.toList

/-! ## Node `path.posix` model

`expandHome` uses `path.join`, and `writeFile` / `ensureDirectoriesFromPaths`
use `path.dirname`.  These are modelled after Node's `path.posix`
implementation (separator `/`). -/

/-- Split a path on the separator `/` (Node's segment scan). -/
def splitOnSlash : JStr → List JStr
  | [] => [[]]
  | '/' :: rest => [] :: splitOnSlash rest
  | c :: rest =>
    match splitOnSlash rest with
    | [] => [[c]]
    | seg :: segs => (c :: seg) :: segs

/-- Node `normalizeString`: resolve `.` and `..` segments; `..` pops the
previous segment, or is kept when `allowAbove` is set and there is nothing
left to pop. -/
def normSegs (allowAbove : Bool) (segs : List JStr) : List JStr :=
  segs.foldl
    (fun acc seg =>
      if seg = [] ∨ seg = ['.'] then acc
      else if seg = ['.', '.'] then
        if acc ≠ [] ∧ acc.getLast? ≠ some ['.', '.'] then acc.dropLast
        else if allowAbove then acc ++ [seg]
        else acc
      else acc ++ [seg])
    []

/-- Join path segments with the separator `/`. -/
def joinSep : List JStr → JStr
  | [] => []
  | [x] => x
  | x :: rest => x ++ '/' :: joinSep rest

/-- Node `path.posix.normalize`. -/
def pnormalize (p : JStr) : JStr :=
  if p = [] then str "."
  else
    let isAbs : Bool := match p with | '/' :: _ => true | _ => false
    let trailing : Bool := decide (p.getLast? = some '/')
    let body := joinSep (normSegs (!isAbs) (splitOnSlash p))
    if body = [] then
      if isAbs then str "/" else if trailing then str "./" else str "."
    else
      let body2 := if trailing then body ++ ['/'] else body
      if isAbs then '/' :: body2 else body2

/-- Node `path.posix.join` restricted to the two arguments the source uses:
non-empty parts are joined with `/` and the result is normalized; with no
non-empty part the result is `"."`. -/
def pjoin (a b : JStr) : JStr :=
  let parts := [a, b].filter (fun x => !x.isEmpty)
  if parts = [] then str "." else pnormalize (joinSep parts)

/-- Node `path.posix.dirname`.  Scanning from the right, trailing separators
and then the basename are skipped; the result is everything before the
separator that precedes the basename (with Node's root special cases). -/
def pdirname (p : JStr) : JStr :=
  if p = [] then str "."
  else
    let hasRoot : Bool := match p with | '/' :: _ => true | _ => false
    let r := (p.reverse.dropWhile (fun c => c = '/')).dropWhile (fun c => c ≠ '/')
    if r.length ≤ 1 then (if hasRoot then str "/" else str ".")
    else if hasRoot ∧ r.length = 2 then str "//"
    else (r.drop 1).reverse

/-! ## `expandHome`

```js
function expandHome(filepath) {
  if (filepath.startsWith("~/") || filepath === "~") {
    return path.join(os.homedir(), filepath.slice(2));
  }
  return filepath;
}
```

`os.homedir()` is an ambient process value; it is passed explicitly here
(and is carried, unchanged, in the `Fs` state for the stateful functions). -/
def expandHome (home filepath : JStr) : JStr :=
  if (str "~/").isPrefixOf filepath = true ∨ filepath = str "~" then
    pjoin home (filepath.drop 2)
  else filepath

-- concrete sanity checks of the path model against Node's behaviour
example : pnormalize (str "/home/u") = str "/home/u" := by decide
example : pjoin (str "/home/u") (str "a/b") = str "/home/u/a/b" := by decide
example : pjoin (str "/home/u") (str "") = str "/home/u" := by decide
example : pdirname (str "/a/f") = str "/a" := by decide
example : pdirname (str "/a") = str "/" := by decide
example : pdirname (str "a") = str "." := by decide
example : pdirname (str "a/b/c") = str "a/b" := by decide
example : pdirname (str "//a") = str "//" := by decide
example : expandHome (str "/root") (str "~") = str "/root" := by decide
example : expandHome (str "/root") (str "~/x/y") = str "/root/x/y" := by decide
example : expandHome (str "/root") (str "/etc/x") = str "/etc/x" := by decide
example : expandHome (str "/root") (str "~abc") = str "~abc" := by decide

/-! ## Filesystem state and primitives -/

/-- One attempted filesystem syscall, as recorded in the trace. -/
inductive Event where
  | mkdir : JStr → Event
  | access : JStr → Event
  | copy : JStr → JStr → Event
  | write : JStr → Event
  | chmod : JStr → Nat → Event
  | stat : JStr → Event
deriving DecidableEq, Repr

/-- The modelled world: ambient process values (`home` for `os.homedir()`,
`now` for `new Date().toISOString()`), filesystem contents, fault-injection
lists for environmental IO failures, and the syscall trace. -/
structure Fs where
  home : JStr
  now : JStr
  files : List (JStr × JStr) := []
  dirs : List JStr := []
  modes : List (JStr × Nat) := []
  accessFail : List JStr := []
  mkdirFail : List JStr := []
  copyFail : List JStr := []
  writeFail : List JStr := []
  chmodFail : List JStr := []
  statFail : List JStr := []
  trace : List Event := []
deriving DecidableEq, Repr

/-- Outcome of a stateful operation: fulfilled (`ok`) or rejected (`err`),
in both cases carrying the state reached (a JavaScript `catch` observes the
side effects performed before the throw). -/
inductive FsResult (α : Type) where
  | ok : α → Fs → FsResult α
  | err : String → Fs → FsResult α
deriving DecidableEq, Repr

/-- The value of a fulfilled result, `none` on rejection. -/
def resultOf {α : Type} : FsResult α → Option α
  | .ok a _ => some a
  | .err _ _ => none

/-- The state a result ends in. -/
def stateOf {α : Type} : FsResult α → Fs
  | .ok _ s => s
  | .err _ s => s

/-- Whether a result is a rejection. -/
def isErr {α : Type} : FsResult α → Bool
  | .ok _ _ => false
  | .err _ _ => true

/-- Association-list lookup with propositional key equality. -/
def lookupA {β : Type} : List (JStr × β) → JStr → Option β
  | [], _ => none
  | (k, v) :: rest, key => if k = key then some v else lookupA rest key

/-- Association-list update-or-append (existing key keeps its position). -/
def setA {β : Type} : List (JStr × β) → JStr → β → List (JStr × β)
  | [], k, v => [(k, v)]
  | (k', v') :: rest, k, v =>
    if k' = k then (k, v) :: rest else (k', v') :: setA rest k v

/-- Append an event to the trace. -/
def logEv (s : Fs) (e : Event) : Fs := { s with trace := s.trace ++ [e] }

/-- `fs.access(p)`: rejects on an injected permission fault or when `p`
exists neither as a file nor as a directory. -/
def fsAccess (p : JStr) (s : Fs) : FsResult Unit :=
  let s1 := logEv s (.access p)
  if p ∈ s1.accessFail then .err "EACCES" s1
  else if (lookupA s1.files p).isSome ∨ p ∈ s1.dirs then .ok () s1
  else .err "ENOENT" s1

/-- `fs.mkdir(p, { recursive: true })`: idempotent directory creation,
recorded by its root path; rejects only on an injected fault. -/
def fsMkdirRec (p : JStr) (s : Fs) : FsResult Unit :=
  let s1 := logEv s (.mkdir p)
  if p ∈ s1.mkdirFail then .err "EACCES" s1
  else .ok () { s1 with dirs := if p ∈ s1.dirs then s1.dirs else s1.dirs ++ [p] }

/-- `fs.copyFile(src, dst)`: rejects on an injected fault at `dst` or when
`src` is not a regular file; otherwise `dst` receives `src`'s content. -/
def fsCopyFile (src dst : JStr) (s : Fs) : FsResult Unit :=
  let s1 := logEv s (.copy src dst)
  if dst ∈ s1.copyFail then .err "EACCES" s1
  else
    match lookupA s1.files src with
    | some c => .ok () { s1 with files := setA s1.files dst c }
    | none => .err "ENOENT" s1

/-- `fs.writeFile(p, content, "utf8")`: truncate-and-write; rejects on an
injected fault. -/
def fsWriteFile (p content : JStr) (s : Fs) : FsResult Unit :=
  let s1 := logEv s (.write p)
  if p ∈ s1.writeFail then .err "EACCES" s1
  else .ok () { s1 with files := setA s1.files p content }

/-- `fs.chmod(p, m)`: sets the mode to exactly `m`; rejects on an injected
fault. -/
def fsChmod (p : JStr) (m : Nat) (s : Fs) : FsResult Unit :=
  let s1 := logEv s (.chmod p m)
  if p ∈ s1.chmodFail then .err "EPERM" s1
  else .ok () { s1 with modes := setA s1.modes p m }

/-- The slice of a `fs.stat` result the module's callers can observe. -/
structure Stats where
  isDirectory : Bool
  size : Nat
  mode : Option Nat
deriving DecidableEq, Repr

/-- `fs.stat(p)`: rejects on an injected fault or a missing path. -/
def fsStat (p : JStr) (s : Fs) : FsResult Stats :=
  let s1 := logEv s (.stat p)
  if p ∈ s1.statFail then .err "EACCES" s1
  else
    match lookupA s1.files p with
    | some c => .ok { isDirectory := false, size := c.length, mode := lookupA s1.modes p } s1
    | none =>
      if p ∈ s1.dirs then
        .ok { isDirectory := true, size := 0, mode := lookupA s1.modes p } s1
      else .err "ENOENT" s1

/-! ## The module's functions -/

/-- ```js
async function ensureDirectory(dir) {
  const expandedDir = expandHome(dir);
  await fs.mkdir(expandedDir, { recursive: true });
  return expandedDir;
}
``` -/
def ensureDirectory (dir : JStr) (s : Fs) : FsResult JStr :=
  let expandedDir := expandHome s.home dir
  match fsMkdirRec expandedDir s with
  | .ok _ s1 => .ok expandedDir s1
  | .err e s1 => .err e s1

/-- ```js
async function ensureDirectories(dirs) {
  const results = [];
  for (const dir of dirs) {
    const created = await ensureDirectory(dir);
    results.push(created);
  }
  return results;
}
```
An uncaught rejection inside the loop aborts the remaining iterations. -/
def ensureDirectories : List JStr → Fs → FsResult (List JStr)
  | [], s => .ok [] s
  | dir :: rest, s =>
    match ensureDirectory dir s with
    | .err e s1 => .err e s1
    | .ok created s1 =>
      match ensureDirectories rest s1 with
      | .err e s2 => .err e s2
      | .ok others s2 => .ok (created :: others) s2

/-- `new Date().toISOString().replace(/[:.]/g, "-")`: every colon and
period becomes a hyphen. -/
def sanitizeTs (ts : JStr) : JStr :=
  ts.map (fun c => if c = ':' ∨ c = '.' then '-' else c)

/-- ```js
async function backupFile(filepath) {
  const expandedPath = expandHome(filepath);
  try {
    await fs.access(expandedPath);
    const timestamp = new Date().toISOString().replace(/[:.]/g, "-");
    const backupPath = `${expandedPath}.backup-${timestamp}`;
    await fs.copyFile(expandedPath, backupPath);
    return backupPath;
  } catch (error) {
    return null;
  }
}
```
The single `try`/`catch` covers both the `fs.access` existence probe and
the `fs.copyFile` call, so a rejection of either one results in `null`. -/
def backupFile (filepath : JStr) (s : Fs) : FsResult (Option JStr) :=
  let expandedPath := expandHome s.home filepath
  match fsAccess expandedPath s with
  | .err _ s1 => .ok none s1
  | .ok _ s1 =>
    let timestamp := sanitizeTs s1.now
    let backupPath := expandedPath ++ str ".backup-" ++ timestamp
    match fsCopyFile expandedPath backupPath s1 with
    | .err _ s2 => .ok none s2
    | .ok _ s2 => .ok (some backupPath) s2

/-- The options object of `writeFile` / `writeFiles` / `writeConfigFiles`.
`none` models a field that is absent from the JavaScript object. -/
structure WriteOptions where
  backup : Option Bool := none
  permissions : Option Nat := none
deriving DecidableEq, Repr

/-- JavaScript truthiness of `options.backup` (`undefined` is falsy). -/
def truthy : Option Bool → Bool
  | some b => b
  | none => false

/-- The result object of one `writeFile` call. -/
structure WriteResult where
  path : JStr
  backup : Option JStr
  created : Bool
deriving DecidableEq, Repr

/-- ```js
async function writeFile(filepath, content, options = {}) {
  const expandedPath = expandHome(filepath);
  const dir = path.dirname(expandedPath);
  await ensureDirectory(dir);
  let backupPath = null;
  if (options.backup) {
    backupPath = await backupFile(expandedPath);
  }
  await fs.writeFile(expandedPath, content, "utf8");
  if (options.permissions !== undefined) {
    await fs.chmod(expandedPath, options.permissions);
  }
  return { path: expandedPath, backup: backupPath, created: backupPath === null };
}
``` -/
def writeFile (filepath content : JStr) (options : WriteOptions) (s : Fs) :
    FsResult WriteResult :=
  let expandedPath := expandHome s.home filepath
  let dir := pdirname expandedPath
  match ensureDirectory dir s with
  | .err e s1 => .err e s1
  | .ok _ s1 =>
    match (if truthy options.backup then backupFile expandedPath s1 else .ok none s1) with
    | .err e s2 => .err e s2
    | .ok backupPath s2 =>
      match fsWriteFile expandedPath content s2 with
      | .err e s3 => .err e s3
      | .ok _ s3 =>
        match options.permissions with
        | some perms =>
          (match fsChmod expandedPath perms s3 with
           | .err e s4 => .err e s4
           | .ok _ s4 =>
             .ok { path := expandedPath, backup := backupPath,
                   created := backupPath.isNone } s4)
        | none =>
          .ok { path := expandedPath, backup := backupPath,
                created := backupPath.isNone } s3

/-- ```js
async function writeFiles(files, options = {}) {
  const results = [];
  for (const [filepath, content] of Object.entries(files)) {
    const result = await writeFile(filepath, content, options);
    results.push(result);
  }
  return results;
}
```
The `files` object is modelled as its `Object.entries` list, in insertion
order. -/
def writeFiles : List (JStr × JStr) → WriteOptions → Fs → FsResult (List WriteResult)
  | [], _, s => .ok [] s
  | (filepath, content) :: rest, options, s =>
    match writeFile filepath content options s with
    | .err e s1 => .err e s1
    | .ok result s1 =>
      match writeFiles rest options s1 with
      | .err e s2 => .err e s2
      | .ok others s2 => .ok (result :: others) s2

/-- ```js
async function writeConfigFiles(files, options = {}) {
  const defaultOptions = { backup: true, permissions: 0o600, ...options };
  return writeFiles(files, defaultOptions);
}
```
The object spread keeps a caller-supplied field and falls back to the
written default when the field is absent. -/
def writeConfigFiles (files : List (JStr × JStr)) (options : WriteOptions) (s : Fs) :
    FsResult (List WriteResult) :=
  let defaultOptions : WriteOptions :=
    { backup := options.backup.orElse (fun _ => some true)
      permissions := options.permissions.orElse (fun _ => some 0o600) }
  writeFiles files defaultOptions s

/-- ```js
async function exists(filepath) {
  const expandedPath = expandHome(filepath);
  try {
    await fs.access(expandedPath);
    return true;
  } catch {
    return false;
  }
}
```
(The JavaScript name is `exists`; that word is reserved in Lean.) -/
def existsFile (filepath : JStr) (s : Fs) : FsResult Bool :=
  let expandedPath := expandHome s.home filepath
  match fsAccess expandedPath s with
  | .ok _ s1 => .ok true s1
  | .err _ s1 => .ok false s1

/-- ```js
async function getStats(filepath) {
  const expandedPath = expandHome(filepath);
  try {
    return await fs.stat(expandedPath);
  } catch {
    return null;
  }
}
``` -/
def getStats (filepath : JStr) (s : Fs) : FsResult (Option Stats) :=
  let expandedPath := expandHome s.home filepath
  match fsStat expandedPath s with
  | .ok st s1 => .ok (some st) s1
  | .err _ s1 => .ok none s1

/-- `Set.prototype.add` on a list kept in insertion order. -/
def addSet (l : List JStr) (x : JStr) : List JStr :=
  if x ∈ l then l else l ++ [x]

/-- `key.toLowerCase()` (the keys in scope are ASCII). -/
def toLowerJs (key : JStr) : JStr := key.map Char.toLower

/-- The keys of a paths object that name files rather than directories. -/
def fileKeys : List JStr := [str "accountmuttrc", str "mainmuttrc"]

/-- ```js
async function ensureDirectoriesFromPaths(paths) {
  const dirs = new Set();
  const fileKeys = ["accountmuttrc", "mainmuttrc"];
  for (const [key, filepath] of Object.entries(paths)) {
    const expandedPath = expandHome(filepath);
    const normalizedKey = key.toLowerCase();
    if (fileKeys.includes(normalizedKey)) {
      dirs.add(path.dirname(expandedPath));
    } else {
      dirs.add(expandedPath);
    }
  }
  return ensureDirectories(Array.from(dirs));
}
```
The paths object is modelled as its `Object.entries` list; the `Set`
preserves insertion order, as does `Array.from`. -/
def ensureDirectoriesFromPaths (paths : List (JStr × JStr)) (s : Fs) :
    FsResult (List JStr) :=
  let dirs := paths.foldl
    (fun acc kv =>
      let expandedPath := expandHome s.home kv.2
      let normalizedKey := toLowerJs kv.1
      if normalizedKey ∈ fileKeys then addSet acc (pdirname expandedPath)
      else addSet acc expandedPath)
    []
  ensureDirectories dirs s

/-! ## Spec-side definitions -/

/-- Modelled from the spec's description of the convenience entry point:
shallow merge of two options records, each explicitly supplied override
field taking precedence over the corresponding default field. -/
def shallowMerge (defaults overrides : WriteOptions) : WriteOptions :=
  { backup := overrides.backup.orElse (fun _ => defaults.backup)
    permissions := overrides.permissions.orElse (fun _ => defaults.permissions) }

/-- The spec's defaults for the config-oriented entry point:
`backup = true`, `permissions = 0o600`. -/
def configDefaults : WriteOptions :=
  { backup := some true, permissions := some 0o600 }

/-! ## Concrete scenarios -/

/-- A world where `/a/f` exists with content `old` and the copy to its
backup path is faulted (e.g. the directory became read-only, or the disk
filled up between the write of `old` and now). -/
def copyFaultFs : Fs :=
  { home := str "/root", now := str "2026-10-11T00:00:00.000Z",
    files := [(str "/a/f", str "old")], dirs := [str "/a"],
    copyFail := [str "/a/f.backup-2026-10-11T00-00-00-000Z"] }

/-- The same copy-fault scenario at `/b/g`, used for the write-result
`created` flag. -/
def copyFaultFs2 : Fs :=
  { home := str "/root", now := str "2026-10-11T00:00:00.000Z",
    files := [(str "/b/g", str "old")], dirs := [str "/b"],
    copyFail := [str "/b/g.backup-2026-10-11T00-00-00-000Z"] }

/-! ## Helper lemmas -/

lemma lookupA_append_left {β : Type} (l r : List (JStr × β)) (k : JStr) (v : β)
    (h : lookupA l k = some v) : lookupA (l ++ r) k = some v := by
  induction l with
  | nil => simp [lookupA] at h
  | cons kv rest ih =>
    obtain ⟨k', v'⟩ := kv
    by_cases hk : k' = k
    · simp [lookupA, hk] at h ⊢
      exact h
    · simp [lookupA, hk] at h ⊢
      exact ih h

lemma setA_of_lookupA_none {β : Type} (l : List (JStr × β)) (k : JStr) (v : β)
    (h : lookupA l k = none) : setA l k v = l ++ [(k, v)] := by
  induction l with
  | nil => rfl
  | cons kv rest ih =>
    obtain ⟨k', v'⟩ := kv
    by_cases hk : k' = k
    · simp [lookupA, hk] at h
    · simp [lookupA, hk] at h
      simp [setA, hk, ih h]

lemma lookupA_append_self {β : Type} (l : List (JStr × β)) (k : JStr) (v : β)
    (h : lookupA l k = none) : lookupA (l ++ [(k, v)]) k = some v := by
  induction l with
  | nil => simp [lookupA]
  | cons kv rest ih =>
    obtain ⟨k', v'⟩ := kv
    by_cases hk : k' = k
    · simp [lookupA, hk] at h
    · simp [lookupA, hk] at h ⊢
      exact ih h

/-! ## Claim theorems -/

/-- C6: `expandHome` maps the exact home marker `~` to the home directory
with no trailing separator (for a home value that is a normalized path
without trailing separator, as `os.homedir()` returns), maps every path of
the form `~/<tail>` to `join(home, tail)`, and returns every other input —
any path not starting with `~/` and not equal to `~` — unchanged. -/
theorem expandHome_spec (home p tail : JStr) :
    (¬(str "~/").isPrefixOf p = true → p ≠ str "~" → expandHome home p = p) ∧
    expandHome home (str "~/" ++ tail) = pjoin home tail ∧
    (home ≠ [] → pnormalize home = home → home.getLast? ≠ some '/' →
      expandHome home (str "~") = home ∧
      (expandHome home (str "~")).getLast? ≠ some '/') := by
  refine ⟨fun h1 h2 => ?_, ?_, fun h3 h4 h5 => ?_⟩
  · rw [expandHome, if_neg]
    exact fun h => h.elim h1 h2
  · have hpre : (str "~/").isPrefixOf (str "~/" ++ tail) = true := by
      rw [show (str "~/") = ['~', '/'] from by decide]
      simp [List.isPrefixOf]
    rw [expandHome, if_pos (Or.inl hpre)]
    have hdrop : (str "~/" ++ tail).drop 2 = tail := rfl
    rw [hdrop]
  · have hcase : expandHome home (str "~") = pjoin home [] := by
      rw [expandHome, if_pos (Or.inr rfl)]
      have hdrop2 : List.drop 2 (str "~") = ([] : JStr) := by decide
      rw [hdrop2]
    have hjoin : pjoin home [] = home := by
      cases home with
      | nil => exact absurd rfl h3
      | cons c t =>
        simp only [pjoin, List.filter, List.isEmpty, Bool.not_false, Bool.not_true]
        exact h4
    rw [hcase, hjoin]
    exact ⟨rfl, h5⟩

theorem expandHome_spec_witness :
    expandHome (str "/home/u") (str "/etc/passwd") = str "/etc/passwd" ∧
    expandHome (str "/home/u") (str "~/" ++ str "a/b") = pjoin (str "/home/u") (str "a/b") ∧
    expandHome (str "/home/u") (str "~") = str "/home/u" ∧
    (expandHome (str "/home/u") (str "~")).getLast? ≠ some '/' := by
  obtain ⟨h1, h2, h3⟩ := expandHome_spec (str "/home/u") (str "/etc/passwd") (str "a/b")
  obtain ⟨h3a, h3b⟩ := h3 (by decide) (by decide) (by decide)
  exact ⟨h1 (by decide) (by decide), h2, h3a, h3b⟩

/-- C8: for every path whose expanded target does not exist, `backupFile`
fulfills with the absence marker `null` — it neither rejects nor creates
any file (the resulting state differs from the input state only by the
recorded `access` probe; in particular its file map is unchanged). -/
theorem backupFile_absent (s : Fs) (filepath : JStr)
    (h1 : lookupA s.files (expandHome s.home filepath) = none)
    (h2 : expandHome s.home filepath ∉ s.dirs) :
    backupFile filepath s =
      .ok none (logEv s (.access (expandHome s.home filepath))) ∧
    (stateOf (backupFile filepath s)).files = s.files := by
  have haccess : fsAccess (expandHome s.home filepath) s =
      .err (if expandHome s.home filepath ∈ s.accessFail then "EACCES" else "ENOENT")
        (logEv s (.access (expandHome s.home filepath))) := by
    unfold fsAccess
    by_cases hf : expandHome s.home filepath ∈ s.accessFail
    · simp [logEv, hf]
    · simp [logEv, hf, h1, h2]
  have hmain : backupFile filepath s =
      .ok none (logEv s (.access (expandHome s.home filepath))) := by
    unfold backupFile
    dsimp only []
    rw [haccess]
  exact ⟨hmain, by rw [hmain]; rfl⟩

theorem backupFile_absent_witness :
    backupFile (str "/nope/missing.txt") { home := str "/root", now := str "t" } =
      .ok none (logEv { home := str "/root", now := str "t" }
        (.access (str "/nope/missing.txt"))) := by
  have h := backupFile_absent { home := str "/root", now := str "t" }
    (str "/nope/missing.txt") (by decide) (by decide)
  have h2 : expandHome (str "/root") (str "/nope/missing.txt") = str "/nope/missing.txt" := by
    decide
  rw [show Fs.home { home := str "/root", now := str "t" } = str "/root" from rfl, h2] at h
  exact h.1

/-- C4: on an existing file with content `c` (reachable by `fs.access` and
with a copyable, not previously existing backup path), `backupFile` creates
exactly one new file — the file map is extended by exactly the one entry
`(backupPath, c)` — at the path formed by appending `.backup-` followed by
the current ISO-8601 timestamp with every colon and period replaced by a
hyphen; the new file's content equals `c` and the original file is left in
place unchanged (a copy, not a move). -/
theorem backupFile_fidelity (s : Fs) (filepath c : JStr)
    (h1 : lookupA s.files (expandHome s.home filepath) = some c)
    (h2 : expandHome s.home filepath ∉ s.accessFail)
    (h3 : expandHome s.home filepath ++ str ".backup-" ++ sanitizeTs s.now ∉ s.copyFail)
    (h4 : lookupA s.files
      (expandHome s.home filepath ++ str ".backup-" ++ sanitizeTs s.now) = none) :
    backupFile filepath s =
      .ok (some (expandHome s.home filepath ++ str ".backup-" ++ sanitizeTs s.now))
        { s with
          files := s.files ++
            [(expandHome s.home filepath ++ str ".backup-" ++ sanitizeTs s.now, c)],
          trace := s.trace ++ [.access (expandHome s.home filepath),
            .copy (expandHome s.home filepath)
              (expandHome s.home filepath ++ str ".backup-" ++ sanitizeTs s.now)] } ∧
    lookupA (s.files ++
        [(expandHome s.home filepath ++ str ".backup-" ++ sanitizeTs s.now, c)])
      (expandHome s.home filepath) = some c ∧
    lookupA (s.files ++
        [(expandHome s.home filepath ++ str ".backup-" ++ sanitizeTs s.now, c)])
      (expandHome s.home filepath ++ str ".backup-" ++ sanitizeTs s.now) = some c := by
  refine ⟨?_, lookupA_append_left _ _ _ _ h1, lookupA_append_self _ _ _ h4⟩
  simp only [List.append_assoc] at h3 h4
  have haccess : fsAccess (expandHome s.home filepath) s =
      .ok () (logEv s (.access (expandHome s.home filepath))) := by
    unfold fsAccess
    simp [logEv, h2, h1]
  unfold backupFile
  dsimp only []
  rw [haccess]
  have hcopy : fsCopyFile (expandHome s.home filepath)
      (expandHome s.home filepath ++ str ".backup-" ++ sanitizeTs s.now)
      (logEv s (.access (expandHome s.home filepath))) =
      .ok ()
        { s with
          files := s.files ++
            [(expandHome s.home filepath ++ str ".backup-" ++ sanitizeTs s.now, c)],
          trace := s.trace ++ [.access (expandHome s.home filepath),
            .copy (expandHome s.home filepath)
              (expandHome s.home filepath ++ str ".backup-" ++ sanitizeTs s.now)] } := by
    unfold fsCopyFile
    simp [logEv, h3, h1, setA_of_lookupA_none _ _ _ h4]
  simp only [logEv] at hcopy ⊢
  rw [hcopy]

theorem backupFile_fidelity_witness :
    backupFile (str "/a/f")
      { home := str "/root", now := str "2026-10-11T00:00:00.000Z",
        files := [(str "/a/f", str "old")], dirs := [str "/a"] } =
      .ok (some (str "/a/f" ++ str ".backup-" ++ sanitizeTs (str "2026-10-11T00:00:00.000Z")))
        { home := str "/root", now := str "2026-10-11T00:00:00.000Z",
          files := [(str "/a/f", str "old")] ++
            [(str "/a/f" ++ str ".backup-" ++ sanitizeTs (str "2026-10-11T00:00:00.000Z"),
              str "old")],
          dirs := [str "/a"],
          trace := [] ++ [.access (str "/a/f"),
            .copy (str "/a/f")
              (str "/a/f" ++ str ".backup-" ++ sanitizeTs (str "2026-10-11T00:00:00.000Z"))] } := by
  have h := backupFile_fidelity
    { home := str "/root", now := str "2026-10-11T00:00:00.000Z",
      files := [(str "/a/f", str "old")], dirs := [str "/a"] }
    (str "/a/f") (str "old") (by decide) (by decide) (by decide) (by decide)
  have hexp : expandHome (str "/root") (str "/a/f") = str "/a/f" := by decide
  simpa [hexp] using h.1

/-- C1 (refuted — code bug): in `copyFaultFs` the target `/a/f` exists but
the copy to its backup path fails.  The claim (and the spec) say the error
propagates and a backup-enabled `writeFile` aborts before writing; instead
the single `try`/`catch` of `backupFile` swallows the copy error and
fulfills with the absence marker `null`, and `writeFile` then overwrites
the content — no backup file exists afterwards. -/
theorem backupFile_swallows_copy_error :
    lookupA copyFaultFs.files (str "/a/f") = some (str "old") ∧
    resultOf (backupFile (str "/a/f") copyFaultFs) = some none ∧
    resultOf (writeFile (str "/a/f") (str "new") { backup := some true } copyFaultFs) =
      some { path := str "/a/f", backup := none, created := true } ∧
    lookupA (stateOf (writeFile (str "/a/f") (str "new")
        { backup := some true } copyFaultFs)).files (str "/a/f") = some (str "new") ∧
    lookupA (stateOf (writeFile (str "/a/f") (str "new")
        { backup := some true } copyFaultFs)).files
      (str "/a/f.backup-2026-10-11T00-00-00-000Z") = none := by
  decide

/-- C2 (refuted — code bug): in `copyFaultFs2` the target `/b/g` has a
pre-existing file, `writeFile` with `backup: true` succeeds, and yet the
result has `created == true` and `backup` absent — because the Backup
Maker's swallowed copy error made it return the absence marker.  The claim
says a pre-existing file yields `created == false` and a non-absent
`backup`. -/
theorem writeFile_result_on_swallowed_copy_error :
    lookupA copyFaultFs2.files (str "/b/g") = some (str "old") ∧
    resultOf (writeFile (str "/b/g") (str "new") { backup := some true } copyFaultFs2) =
      some { path := str "/b/g", backup := none, created := true } := by
  decide

/-- C5: `writeConfigFiles` behaves exactly as `writeFiles` with effective
options obtained by shallow-merging the caller options over the defaults
`backup = true`, `permissions = 0o600`, each explicitly supplied caller
field taking precedence over the corresponding default field. -/
theorem writeConfigFiles_shallow_merge (files : List (JStr × JStr))
    (options : WriteOptions) (s : Fs) :
    writeConfigFiles files options s =
      writeFiles files (shallowMerge configDefaults options) s := by
  rcases options with ⟨ob, op⟩
  cases ob <;> cases op <;> rfl

/-- C10: `exists` and `getStats` never reject: for every state and input
path they fulfill, with the closed-form value below.  Every underlying
filesystem failure — a missing path, but also an injected access/stat
fault such as a permission error — is mapped to `false` resp. `null`, so
those results do not distinguish a missing path from an inaccessible
one. -/
theorem existsFile_getStats_total (s : Fs) (filepath : JStr) :
    existsFile filepath s =
      .ok (decide (expandHome s.home filepath ∉ s.accessFail) &&
           ((lookupA s.files (expandHome s.home filepath)).isSome ||
            decide (expandHome s.home filepath ∈ s.dirs)))
        (logEv s (.access (expandHome s.home filepath))) ∧
    getStats filepath s =
      .ok (if expandHome s.home filepath ∈ s.statFail then none
           else
             match lookupA s.files (expandHome s.home filepath) with
             | some c => some { isDirectory := false, size := c.length,
                                mode := lookupA s.modes (expandHome s.home filepath) }
             | none =>
               if expandHome s.home filepath ∈ s.dirs then
                 some { isDirectory := true, size := 0,
                        mode := lookupA s.modes (expandHome s.home filepath) }
               else none)
        (logEv s (.stat (expandHome s.home filepath))) := by
  constructor
  · unfold existsFile fsAccess
    dsimp only []
    by_cases h1 : expandHome s.home filepath ∈ s.accessFail
    · simp [logEv, h1]
    · by_cases h2 : (lookupA s.files (expandHome s.home filepath)).isSome = true ∨
        expandHome s.home filepath ∈ s.dirs
      · rcases h2 with h2 | h2 <;> simp [logEv, h1, h2]
      · push_neg at h2
        simp [logEv, h1, h2.1, h2.2]
  · unfold getStats fsStat
    dsimp only []
    by_cases h1 : expandHome s.home filepath ∈ s.statFail
    · simp [logEv, h1]
    · cases hl : lookupA s.files (expandHome s.home filepath) with
      | some c => simp [logEv, h1, hl]
      | none =>
        by_cases h2 : expandHome s.home filepath ∈ s.dirs <;>
          simp [logEv, h1, hl, h2]

lemma ensureDirectory_ok (d : JStr) (s : Fs) (v : JStr) (s' : Fs)
    (h : ensureDirectory d s = .ok v s') :
    v = expandHome s.home d ∧ s'.home = s.home := by
  unfold ensureDirectory fsMkdirRec at h
  dsimp only [] at h
  by_cases hm : expandHome s.home d ∈ s.mkdirFail
  · simp [logEv, hm] at h
  · simp [logEv, hm] at h
    obtain ⟨hv, hs⟩ := h
    exact ⟨hv.symm, by rw [← hs]⟩

lemma ensureDirectories_seq (ds : List JStr) : ∀ s : Fs,
    (∃ s', ensureDirectories ds s = .ok (ds.map (expandHome s.home)) s') ∨
    (∃ k e s', k < ds.length ∧
      ensureDirectories ds s = .err e s' ∧
      ensureDirectories (ds.take (k + 1)) s = .err e s' ∧
      ∃ s0, ensureDirectories (ds.take k) s =
        .ok ((ds.take k).map (expandHome s.home)) s0) := by
  induction ds with
  | nil => exact fun s => Or.inl ⟨s, rfl⟩
  | cons d rest ih =>
    intro s
    cases hE : ensureDirectory d s with
    | err e s1 =>
      right
      refine ⟨0, e, s1, by simp, ?_, ?_, s, by simp [ensureDirectories]⟩
      · show ensureDirectories (d :: rest) s = .err e s1
        unfold ensureDirectories
        rw [hE]
      · show ensureDirectories ((d :: rest).take 1) s = .err e s1
        simp only [List.take]
        unfold ensureDirectories
        rw [hE]
    | ok v s1 =>
      obtain ⟨hv, hhome⟩ := ensureDirectory_ok d s v s1 hE
      rcases ih s1 with ⟨s', hrec⟩ | ⟨k, e, s', hk, hfull, htake1, s0, htake0⟩
      · left
        refine ⟨s', ?_⟩
        rw [hhome] at hrec
        show ensureDirectories (d :: rest) s = _
        unfold ensureDirectories
        rw [hE]
        dsimp only []
        rw [hrec, hv, List.map_cons]
      · right
        rw [hhome] at htake0
        refine ⟨k + 1, e, s', by simpa using Nat.succ_lt_succ hk, ?_, ?_, s0, ?_⟩
        · show ensureDirectories (d :: rest) s = .err e s'
          unfold ensureDirectories
          rw [hE]
          dsimp only []
          rw [hfull]
        · show ensureDirectories ((d :: rest).take (k + 2)) s = .err e s'
          simp only [List.take]
          unfold ensureDirectories
          rw [hE]
          dsimp only []
          rw [htake1]
        · show ensureDirectories ((d :: rest).take (k + 1)) s =
            .ok (((d :: rest).take (k + 1)).map (expandHome s.home)) s0
          simp only [List.take, List.map_cons]
          unfold ensureDirectories
          rw [hE]
          dsimp only []
          rw [htake0, hv]

lemma writeFiles_seq (files : List (JStr × JStr)) : ∀ (o : WriteOptions) (s : Fs),
    (∃ rs s', writeFiles files o s = .ok rs s' ∧ rs.length = files.length) ∨
    (∃ k e s', k < files.length ∧
      writeFiles files o s = .err e s' ∧
      writeFiles (files.take (k + 1)) o s = .err e s' ∧
      ∃ rs s0, writeFiles (files.take k) o s = .ok rs s0 ∧ rs.length = k) := by
  induction files with
  | nil => exact fun o s => Or.inl ⟨[], s, rfl, rfl⟩
  | cons fc rest ih =>
    intro o s
    obtain ⟨f, c⟩ := fc
    cases hW : writeFile f c o s with
    | err e s1 =>
      right
      refine ⟨0, e, s1, by simp, ?_, ?_, [], s, by simp [writeFiles], rfl⟩
      · show writeFiles ((f, c) :: rest) o s = .err e s1
        unfold writeFiles
        rw [hW]
      · show writeFiles (((f, c) :: rest).take 1) o s = .err e s1
        simp only [List.take]
        unfold writeFiles
        rw [hW]
    | ok r s1 =>
      rcases ih o s1 with ⟨rs, s', hrec, hlen⟩ | ⟨k, e, s', hk, hfull, htake1, rs, s0, htake0, hlen⟩
      · left
        refine ⟨r :: rs, s', ?_, by simp [hlen]⟩
        show writeFiles ((f, c) :: rest) o s = _
        unfold writeFiles
        rw [hW]
        dsimp only []
        rw [hrec]
      · right
        refine ⟨k + 1, e, s', by simpa using Nat.succ_lt_succ hk, ?_, ?_, r :: rs, s0, ?_, by simp [hlen]⟩
        · show writeFiles ((f, c) :: rest) o s = .err e s'
          unfold writeFiles
          rw [hW]
          dsimp only []
          rw [hfull]
        · show writeFiles (((f, c) :: rest).take (k + 2)) o s = .err e s'
          simp only [List.take]
          unfold writeFiles
          rw [hW]
          dsimp only []
          rw [htake1]
        · show writeFiles (((f, c) :: rest).take (k + 1)) o s = .ok (r :: rs) s0
          simp only [List.take]
          unfold writeFiles
          rw [hW]
          dsimp only []
          rw [htake0]

/-- C7: `ensureDirectories` and `writeFiles` process their items
sequentially in input order.  On full success, `ensureDirectories` returns
the expanded paths in input order (one per item) and `writeFiles` one
result per entry.  If item `k` (0-based) fails, the error propagates, the
whole run equals the run of only the first `k + 1` items — so items
`k+2 .. n` are never attempted and the side effects of the successful
items before `k` are retained, with no rollback — and the first `k` items
alone run to success. -/
theorem batch_sequential_abort :
    (∀ (ds : List JStr) (s : Fs),
      (∃ s', ensureDirectories ds s = .ok (ds.map (expandHome s.home)) s') ∨
      (∃ k e s', k < ds.length ∧
        ensureDirectories ds s = .err e s' ∧
        ensureDirectories (ds.take (k + 1)) s = .err e s' ∧
        ∃ s0, ensureDirectories (ds.take k) s =
          .ok ((ds.take k).map (expandHome s.home)) s0)) ∧
    (∀ (files : List (JStr × JStr)) (o : WriteOptions) (s : Fs),
      (∃ rs s', writeFiles files o s = .ok rs s' ∧ rs.length = files.length) ∨
      (∃ k e s', k < files.length ∧
        writeFiles files o s = .err e s' ∧
        writeFiles (files.take (k + 1)) o s = .err e s' ∧
        ∃ rs s0, writeFiles (files.take k) o s = .ok rs s0 ∧ rs.length = k)) :=
  ⟨fun ds s => ensureDirectories_seq ds s, fun files o s => writeFiles_seq files o s⟩

lemma mem_foldl_addSet (l : List JStr) : ∀ (acc : List JStr) (x : JStr),
    x ∈ l.foldl addSet acc ↔ x ∈ acc ∨ x ∈ l := by
  induction l with
  | nil => simp
  | cons a t ih =>
    intro acc x
    simp only [List.foldl_cons]
    rw [ih]
    unfold addSet
    by_cases ha : a ∈ acc
    · rw [if_pos ha]
      simp only [List.mem_cons]
      constructor
      · rintro (h | h)
        · exact Or.inl h
        · exact Or.inr (Or.inr h)
      · rintro (h | rfl | h)
        · exact Or.inl h
        · exact Or.inl ha
        · exact Or.inr h
    · rw [if_neg ha]
      simp only [List.mem_append, List.mem_singleton, List.mem_cons]
      tauto

lemma nodup_foldl_addSet (l : List JStr) : ∀ acc : List JStr,
    acc.Nodup → (l.foldl addSet acc).Nodup := by
  induction l with
  | nil => exact fun acc h => h
  | cons a t ih =>
    intro acc hacc
    simp only [List.foldl_cons]
    apply ih
    unfold addSet
    by_cases ha : a ∈ acc
    · rwa [if_pos ha]
    · rw [if_neg ha]
      simp [List.nodup_append, hacc, ha]

/-- C9: `ensureDirectoriesFromPaths` schedules, for each entry whose key
lower-cases to one of the fixed file-marker key names, the parent directory
of the entry's expanded path, and for every other entry the expanded path
itself; the run equals `ensureDirectories` applied to that scheduled list,
which is de-duplicated (it has no duplicates yet contains exactly the
directories computed from the entries). -/
theorem ensureDirectoriesFromPaths_spec (paths : List (JStr × JStr)) (s : Fs) :
    ensureDirectoriesFromPaths paths s =
      ensureDirectories
        ((paths.map (fun kv =>
            if toLowerJs kv.1 ∈ fileKeys then pdirname (expandHome s.home kv.2)
            else expandHome s.home kv.2)).foldl addSet []) s ∧
    ((paths.map (fun kv =>
        if toLowerJs kv.1 ∈ fileKeys then pdirname (expandHome s.home kv.2)
        else expandHome s.home kv.2)).foldl addSet []).Nodup ∧
    (∀ x, x ∈ (paths.map (fun kv =>
        if toLowerJs kv.1 ∈ fileKeys then pdirname (expandHome s.home kv.2)
        else expandHome s.home kv.2)).foldl addSet [] ↔
      x ∈ paths.map (fun kv =>
        if toLowerJs kv.1 ∈ fileKeys then pdirname (expandHome s.home kv.2)
        else expandHome s.home kv.2)) := by
  refine ⟨?_, nodup_foldl_addSet _ _ List.nodup_nil,
    fun x => by rw [mem_foldl_addSet]; simp⟩
  unfold ensureDirectoriesFromPaths
  dsimp only []
  congr 1
  rw [List.foldl_map]
  apply List.foldl_ext
  intro acc kv _
  by_cases hk : toLowerJs kv.1 ∈ fileKeys
  · simp [hk]
  · simp [hk]

/-- C3: every `writeFile` run takes the fixed step order — path expansion,
then creation of the (expanded) parent directory (attempted even when the
target file already exists, and before any backup or write), then the
conditional backup (completed before any content is written), then the
content write, then the conditional permission set — and a failing step
rejects the whole call with no later step attempted.  The disjunction
below enumerates every possible run: in each case the final trace extends
the initial one by exactly the syscalls of the completed steps, in order.
(As the `tail` cases make explicit, the backup phase itself never rejects:
its internal access/copy errors are swallowed by `backupFile` — see C1 —
so at this level the failures that exist are mkdir, write and chmod, and
each of those aborts and propagates.) -/
theorem writeFile_step_order (s : Fs) (filepath content : JStr) (o : WriteOptions) :
    let ep := expandHome s.home filepath
    let dm := expandHome s.home (pdirname ep)
    let dirs1 := if dm ∈ s.dirs then s.dirs else s.dirs ++ [dm]
    let ep2 := expandHome s.home ep
    let bp := ep2 ++ str ".backup-" ++ sanitizeTs s.now
    let r := writeFile filepath content o s
    let tail : Fs → Option JStr → Prop := fun s2 br =>
      (ep ∈ s.writeFail ∧
        r = .err "EACCES" { s2 with trace := s2.trace ++ [Event.write ep] }) ∨
      (ep ∉ s.writeFail ∧
        ((o.permissions = none ∧
           r = .ok { path := ep, backup := br, created := br.isNone }
             { s2 with trace := s2.trace ++ [Event.write ep],
                       files := setA s2.files ep content }) ∨
         (∃ m, o.permissions = some m ∧
           ((ep ∈ s.chmodFail ∧
              r = .err "EPERM"
                { s2 with trace := s2.trace ++ [Event.write ep] ++ [Event.chmod ep m],
                          files := setA s2.files ep content }) ∨
            (ep ∉ s.chmodFail ∧
              r = .ok { path := ep, backup := br, created := br.isNone }
                { s2 with trace := s2.trace ++ [Event.write ep] ++ [Event.chmod ep m],
                          files := setA s2.files ep content,
                          modes := setA s2.modes ep m })))))
    (dm ∈ s.mkdirFail ∧
      r = .err "EACCES" { s with trace := s.trace ++ [Event.mkdir dm] }) ∨
    (dm ∉ s.mkdirFail ∧ truthy o.backup = false ∧
      tail { s with trace := s.trace ++ [Event.mkdir dm], dirs := dirs1 } none) ∨
    (dm ∉ s.mkdirFail ∧ truthy o.backup = true ∧
      (ep2 ∈ s.accessFail ∨ ((lookupA s.files ep2).isSome = false ∧ ep2 ∉ dirs1)) ∧
      tail { s with trace := s.trace ++ [Event.mkdir dm] ++ [Event.access ep2],
                    dirs := dirs1 } none) ∨
    (dm ∉ s.mkdirFail ∧ truthy o.backup = true ∧
      ep2 ∉ s.accessFail ∧ ((lookupA s.files ep2).isSome = true ∨ ep2 ∈ dirs1) ∧
      (bp ∈ s.copyFail ∨ lookupA s.files ep2 = none) ∧
      tail { s with trace := s.trace ++ [Event.mkdir dm] ++ [Event.access ep2] ++
                      [Event.copy ep2 bp],
                    dirs := dirs1 } none) ∨
    (dm ∉ s.mkdirFail ∧ truthy o.backup = true ∧
      ep2 ∉ s.accessFail ∧ bp ∉ s.copyFail ∧
      ∃ cv, lookupA s.files ep2 = some cv ∧
        tail { s with trace := s.trace ++ [Event.mkdir dm] ++ [Event.access ep2] ++
                        [Event.copy ep2 bp],
                      dirs := dirs1,
                      files := setA s.files bp cv } (some bp)) := by
  dsimp only []
  by_cases h1 : expandHome s.home (pdirname (expandHome s.home filepath)) ∈ s.mkdirFail
  · simp [writeFile, ensureDirectory, fsMkdirRec, logEv, h1]
  · by_cases hb : truthy o.backup = true
    · by_cases hAF : expandHome s.home (expandHome s.home filepath) ∈ s.accessFail
      · by_cases hw : expandHome s.home filepath ∈ s.writeFail
        · simp [writeFile, ensureDirectory, fsMkdirRec, backupFile, fsAccess,
            fsWriteFile, logEv, h1, hb, hAF, hw]
        · cases hp : o.permissions with
          | none =>
            simp [writeFile, ensureDirectory, fsMkdirRec, backupFile, fsAccess,
              fsWriteFile, logEv, h1, hb, hAF, hw, hp]
          | some m =>
            by_cases hc : expandHome s.home filepath ∈ s.chmodFail
            · simp [writeFile, ensureDirectory, fsMkdirRec, backupFile, fsAccess,
                fsWriteFile, fsChmod, logEv, h1, hb, hAF, hw, hp, hc]
            · simp [writeFile, ensureDirectory, fsMkdirRec, backupFile, fsAccess,
                fsWriteFile, fsChmod, logEv, h1, hb, hAF, hw, hp, hc]
      · by_cases hEx : (lookupA s.files (expandHome s.home (expandHome s.home filepath))).isSome = true ∨
          expandHome s.home (expandHome s.home filepath) ∈
            (if expandHome s.home (pdirname (expandHome s.home filepath)) ∈ s.dirs then s.dirs
             else s.dirs ++ [expandHome s.home (pdirname (expandHome s.home filepath))])
        · by_cases hCF : expandHome s.home (expandHome s.home filepath) ++ str ".backup-" ++
              sanitizeTs s.now ∈ s.copyFail
          · simp only [List.append_assoc] at hCF
            by_cases hw : expandHome s.home filepath ∈ s.writeFail
            · simp [writeFile, ensureDirectory, fsMkdirRec, backupFile, fsAccess,
                fsCopyFile, fsWriteFile, logEv, h1, hb, hAF, hEx, hCF, hw]
            · cases hp : o.permissions with
              | none =>
                simp [writeFile, ensureDirectory, fsMkdirRec, backupFile, fsAccess,
                  fsCopyFile, fsWriteFile, logEv, h1, hb, hAF, hEx, hCF, hw, hp]
              | some m =>
                by_cases hc : expandHome s.home filepath ∈ s.chmodFail
                · simp [writeFile, ensureDirectory, fsMkdirRec, backupFile, fsAccess,
                    fsCopyFile, fsWriteFile, fsChmod, logEv, h1, hb, hAF, hEx, hCF, hw, hp, hc]
                · simp [writeFile, ensureDirectory, fsMkdirRec, backupFile, fsAccess,
                    fsCopyFile, fsWriteFile, fsChmod, logEv, h1, hb, hAF, hEx, hCF, hw, hp, hc]
          · simp only [List.append_assoc] at hCF
            cases hLk : lookupA s.files (expandHome s.home (expandHome s.home filepath)) with
            | none =>
              have hDir : expandHome s.home (expandHome s.home filepath) ∈
                  (if expandHome s.home (pdirname (expandHome s.home filepath)) ∈ s.dirs then s.dirs
                   else s.dirs ++ [expandHome s.home (pdirname (expandHome s.home filepath))]) := by
                rcases hEx with h | h
                · rw [hLk] at h
                  simp at h
                · exact h
              by_cases hw : expandHome s.home filepath ∈ s.writeFail
              · simp [writeFile, ensureDirectory, fsMkdirRec, backupFile, fsAccess,
                  fsCopyFile, fsWriteFile, logEv, h1, hb, hAF, hDir, hCF, hLk, hw]
              · cases hp : o.permissions with
                | none =>
                  simp [writeFile, ensureDirectory, fsMkdirRec, backupFile, fsAccess,
                    fsCopyFile, fsWriteFile, logEv, h1, hb, hAF, hDir, hCF, hLk, hw, hp]
                | some m =>
                  by_cases hc : expandHome s.home filepath ∈ s.chmodFail
                  · simp [writeFile, ensureDirectory, fsMkdirRec, backupFile, fsAccess,
                      fsCopyFile, fsWriteFile, fsChmod, logEv, h1, hb, hAF, hDir, hCF, hLk, hw, hp, hc]
                  · simp [writeFile, ensureDirectory, fsMkdirRec, backupFile, fsAccess,
                      fsCopyFile, fsWriteFile, fsChmod, logEv, h1, hb, hAF, hDir, hCF, hLk, hw, hp, hc]
            | some cv =>
              by_cases hw : expandHome s.home filepath ∈ s.writeFail
              · simp [writeFile, ensureDirectory, fsMkdirRec, backupFile, fsAccess,
                  fsCopyFile, fsWriteFile, logEv, h1, hb, hAF, hCF, hLk, hw]
              · cases hp : o.permissions with
                | none =>
                  simp [writeFile, ensureDirectory, fsMkdirRec, backupFile, fsAccess,
                    fsCopyFile, fsWriteFile, logEv, h1, hb, hAF, hCF, hLk, hw, hp]
                | some m =>
                  by_cases hc : expandHome s.home filepath ∈ s.chmodFail
                  · simp [writeFile, ensureDirectory, fsMkdirRec, backupFile, fsAccess,
                      fsCopyFile, fsWriteFile, fsChmod, logEv, h1, hb, hAF, hCF, hLk, hw, hp, hc]
                  · simp [writeFile, ensureDirectory, fsMkdirRec, backupFile, fsAccess,
                      fsCopyFile, fsWriteFile, fsChmod, logEv, h1, hb, hAF, hCF, hLk, hw, hp, hc]
        · push_neg at hEx
          obtain ⟨hEx1, hEx2⟩ := hEx
          simp only [ne_eq, Bool.not_eq_true] at hEx1
          by_cases hw : expandHome s.home filepath ∈ s.writeFail
          · simp [writeFile, ensureDirectory, fsMkdirRec, backupFile, fsAccess,
              fsWriteFile, logEv, h1, hb, hAF, hEx1, hEx2, hw]
          · cases hp : o.permissions with
            | none =>
              simp [writeFile, ensureDirectory, fsMkdirRec, backupFile, fsAccess,
                fsWriteFile, logEv, h1, hb, hAF, hEx1, hEx2, hw, hp]
            | some m =>
              by_cases hc : expandHome s.home filepath ∈ s.chmodFail
              · simp [writeFile, ensureDirectory, fsMkdirRec, backupFile, fsAccess,
                  fsWriteFile, fsChmod, logEv, h1, hb, hAF, hEx1, hEx2, hw, hp, hc]
              · simp [writeFile, ensureDirectory, fsMkdirRec, backupFile, fsAccess,
                  fsWriteFile, fsChmod, logEv, h1, hb, hAF, hEx1, hEx2, hw, hp, hc]
    · rw [Bool.not_eq_true] at hb
      by_cases hw : expandHome s.home filepath ∈ s.writeFail
      · simp [writeFile, ensureDirectory, fsMkdirRec, fsWriteFile, logEv, h1, hb, hw]
      · cases hp : o.permissions with
        | none =>
          simp [writeFile, ensureDirectory, fsMkdirRec, fsWriteFile, logEv, h1, hb, hw, hp]
        | some m =>
          by_cases hc : expandHome s.home filepath ∈ s.chmodFail
          · simp [writeFile, ensureDirectory, fsMkdirRec, fsWriteFile, fsChmod, logEv,
              h1, hb, hw, hp, hc]
          · simp [writeFile, ensureDirectory, fsMkdirRec, fsWriteFile, fsChmod, logEv,
              h1, hb, hw, hp, hc]
